import Mathlib

/-!
Pack v4 object decoder — verification of `packv4-parse.c`.

A shallow embedding of the pack-v4 object decoder (`packv4-parse.c`) over
`List Nat` byte sequences, together with theorems settling the frozen claims
about it.

Modelling conventions:

* Bytes are `Nat` values (well-formed inputs keep them below 256, and every
  mask the C code applies — `& 127`, `& 128`, `& 0xf` — is applied
  unchanged).
* C machine-integer truncation is explicit: a value the C code stores in an
  `unsigned int` is reduced `% 2^32`, an `unsigned long` value `% 2^64`.
* Failure modes are distinguished by `Err`:
  `.fail` is an error *return* (`NULL` result / `-1`), `.die` is a process
  abort via `die(...)`, and `.crash` is undefined behaviour (a read or write
  outside an allocation, a `NULL` dereference, or resource exhaustion on
  unbounded recursion).
* The pack window manager `use_pack` is instantiated with maximal windows:
  a request at `offset` yields all the remaining pack bytes
  (`data.drop offset`, with `avail` its length).  `use_pack` may legally
  return any nonempty prefix-closed window, and the decoder re-requests
  windows whenever `avail` runs low, so the maximal instantiation is the
  faithful functional reading.
* zlib inflate is external (spec §6); a pack carries `inflateAt`, giving for
  each offset the full decompressed byte sequence of a well-formed zlib
  stream starting there (`none` when the stream never reaches
  `Z_STREAM_END`).
-/

/-- Outcome of a decode path that the C code distinguishes:
`fail` = error return (`NULL` pointer or `-1`), `die` = process abort via
`die()`, `crash` = undefined behaviour (out-of-bounds access, `NULL`
dereference, unbounded recursion). -/
inductive Err where
  | fail
  | die
  | crash
deriving DecidableEq, Repr

/-- Modelled from the spec (§4.1, §8 scenario 1) and `varint.h` (not under
review): decode one offset varint from the head of `buf`.  Start with the
low seven bits of the first byte; while the current byte has its high bit
set, add one to the accumulator, shift it left seven bits and merge the next
byte's low seven bits.  Returns the decoded value and the count of bytes
consumed (`none` when the encoding runs past the end of the buffer, which in
C would be a read past the window). -/
def decode_varint : List Nat → Option (Nat × Nat)
  | [] => none
  | b :: rest =>
    if b &&& 128 = 0 then
      some (b &&& 127, 1)
    else
      go rest (b &&& 127) 1
where
  go : List Nat → Nat → Nat → Option (Nat × Nat)
    | [], _, _ => none
    | b :: rest, val, consumed =>
      let val' := (val + 1) * 128 + (b &&& 127)
      if b &&& 128 = 0 then
        some (val', consumed + 1)
      else
        go rest val' (consumed + 1)

/-- Skip over one varint without decoding it: `while (*scp++ & 128);`.
Returns the number of bytes consumed, `none` when the walk runs off the end
of the buffer. -/
def skip_varint : List Nat → Option Nat
  | [] => none
  | b :: rest =>
    if b &&& 128 = 0 then some 1
    else (skip_varint rest).map (· + 1)

/-- Modelled from the spec (§6 `hash_to_hex`): one lowercase hex digit. -/
def hexDigit (n : Nat) : Nat :=
  if n < 10 then 48 + n else 87 + n

/-- Modelled from the spec (§6): `sha1_to_hex`, the lowercase hexadecimal
rendering of a hash, two digits per byte. -/
def sha1_to_hex : List Nat → List Nat
  | [] => []
  | b :: rest => hexDigit (b / 16) :: hexDigit (b % 16) :: sha1_to_hex rest

/-- ASCII decimal digits of `n` (the C `%lu` conversion). -/
def natDec (n : Nat) : List Nat := (Nat.toDigits 10 n).map Char.toNat

/-- ASCII octal digits of `n` (the C `%o` conversion). -/
def natOct (n : Nat) : List Nat := (Nat.toDigits 8 n).map Char.toNat

/-- Byte list of a string literal. -/
def strBytes (s : String) : List Nat := s.data.map Char.toNat

/-- The C `%+05d` conversion for the 16-bit timezone value: a mandatory
sign, then the decimal magnitude zero-padded on the left to at least four
digits (field width five including the sign). -/
def fmt_plus05 (z : Int) : List Nat :=
  let digits := natDec z.natAbs
  let pad := List.replicate (4 - digits.length) 48
  (if z < 0 then 45 else 43) :: (pad ++ digits)

/-- Reinterpret the low sixteen bits of `v` as the C `int16_t` the decoder
stores the timezone in. -/
def sign16 (v : Nat) : Int :=
  let v := v % 65536
  if v < 32768 then (v : Int) else (v : Int) - 65536

/-- A loaded pack dictionary (`struct packv4_dict`): the inflated buffer and
the recorded start offset of each record.  `nb_entries` is the length of the
offset table. -/
structure Pv4Dict where
  data : List Nat
  offsets : List Nat
deriving Repr

/-- Count of dictionary entries (`dict->nb_entries`). -/
def Pv4Dict.nb_entries (d : Pv4Dict) : Nat := d.offsets.length

/-- The pack handle (`struct packed_git`), restricted to the state the
decoder reads, plus the external capabilities of spec §6:
`findEntry` is `find_pack_entry_one` (hash → offset, `0` when absent),
`nthOffset` is `nth_packed_object_offset`, and `inflateAt o` is the full
output of the zlib stream starting at pack offset `o` (`none` when that
stream never reaches `Z_STREAM_END`).  `sha1_table` holds the bytes mapped
at the table's address; bytes beyond `20 * num_objects` model whatever the
index file maps after the table.  The dictionaries are the lazily-loaded
state after a successful load (a failed load `die`s before any object is
decoded, so decoding only ever sees loaded dictionaries). -/
structure PackedGit where
  num_objects : Nat
  sha1_table : List Nat
  ident_dict : Pv4Dict
  path_dict : Pv4Dict
  findEntry : List Nat → Nat
  nthOffset : Nat → Nat
  inflateAt : Nat → Option (List Nat)
  data : List Nat

/-- Read twenty bytes from the head of `buf`; fewer available is a read
past the mapped region (`crash`). -/
def read20 (buf : List Nat) : Except Err (List Nat) :=
  if buf.length < 20 then .error .crash else .ok (buf.take 20)

/-- `get_sha1ref`: resolve a hash reference at the head of `buf`.  A zero
first byte means the twenty hash bytes follow inline and the cursor advances
21 bytes.  Otherwise a varint index `i` is read; `i < 1` or
`i - 1 > num_objects` calls `die(...)` (note the source comparison is
`index - 1 > p->num_objects`, not `>=`), and the hash is the
`(i-1)`-th 20-byte entry of the hash table.  Result: hash bytes and cursor
advance. -/
def get_sha1ref (p : PackedGit) (buf : List Nat) : Except Err (List Nat × Nat) :=
  match buf with
  | [] => .error .crash
  | b :: rest =>
    if b = 0 then
      match read20 rest with
      | .error e => .error e
      | .ok h => .ok (h, 21)
    else
      match decode_varint (b :: rest) with
      | none => .error .crash
      | some (v, n) =>
        let index := v % 2^32
        if index < 1 ∨ index - 1 > p.num_objects then .error .die
        else
          match read20 (p.sha1_table.drop ((index - 1) * 20)) with
          | .error e => .error e
          | .ok h => .ok (h, n)

/-- `get_identref`: decode a varint index into the identity dictionary;
an index at or past `nb_entries` reports an error and returns `NULL`
(`.fail`).  Result: the record view (prefix bytes and string) and the
cursor advance. -/
def get_identref (p : PackedGit) (buf : List Nat) : Except Err (List Nat × Nat) :=
  match decode_varint buf with
  | none => .error .crash
  | some (v, n) =>
    let index := v % 2^32
    if p.ident_dict.nb_entries ≤ index then .error .fail
    else .ok (p.ident_dict.data.drop (p.ident_dict.offsets.getD index 0), n)

/-- `get_pathref`: direct indexed lookup in the path dictionary; an index at
or past `nb_entries` reports an error and returns `NULL` (`none`). -/
def get_pathref (p : PackedGit) (index : Nat) : Option (List Nat) :=
  if p.path_dict.nb_entries ≤ index then none
  else some (p.path_dict.data.drop (p.path_dict.offsets.getD index 0))

/-- The record-counting walk of `load_dict`.  Starting at `cp`, while
`cp < dict_size - 3` a record is walked: two prefix bytes, a NUL-terminated
string (`strlen`), and the terminating NUL.  `dataFull` is the allocated
buffer: the inflated bytes plus the extra NUL byte `xmallocz` appends, so
`strlen` always terminates inside the allocation.  Returns the final cursor
and the record start offsets (the C code walks twice — once counting, once
recording offsets — over the same buffer; the offsets recorded are exactly
the cursor positions of this walk).  The structural `fuel` argument is a
modelling artifact: every iteration advances `cp` by at least three, and
the loop runs only while `cp < dict_size - 3`, so the `dict_size` fuel
`load_dict` supplies can never be exhausted. -/
def dict_walk (dataFull : List Nat) (dict_size : Nat) :
    Nat → Nat → List Nat → Nat × List Nat
  | 0, cp, acc => (cp, acc)
  | fuel + 1, cp, acc =>
    if cp < dict_size - 3 then
      let s := ((dataFull.drop (cp + 2)).takeWhile (fun b => b ≠ 0)).length
      dict_walk dataFull dict_size fuel (cp + 2 + s + 1) (acc ++ [cp])
    else (cp, acc)

/-- `load_dict`: read the varint uncompressed size at `offset` (an
`unsigned long`; sizes below 3 are rejected), inflate the following stream
(success requires `Z_STREAM_END` with exactly `dict_size` output bytes),
walk the records counting entries, and reject unless the walk ends exactly
at `data + dict_size`.  `none` is the `NULL` return.  The cursor
bookkeeping for the compressed stream's end position is carried by the
external window layer and is not modelled. -/
def load_dict (p : PackedGit) (offset : Nat) : Option Pv4Dict :=
  match decode_varint (p.data.drop offset) with
  | none => none
  | some (ds0, n) =>
    let dict_size := ds0 % 2^64
    if dict_size < 3 then none
    else
      match p.inflateAt (offset + n) with
      | none => none
      | some data =>
        if data.length ≠ dict_size then none
        else
          let w := dict_walk (data ++ [0]) dict_size dict_size 0 []
          if w.1 ≠ dict_size then none
          else some ⟨data, w.2⟩

/-- The NUL-terminated string part of a dictionary record view (the C
`%s` conversion applied to `ident + 2` / `path + 2`). -/
def identName (ident : List Nat) : List Nat :=
  (ident.drop 2).takeWhile (fun b => b ≠ 0)

/-- The big-endian 16-bit prefix of an identity record, reinterpreted as the
`int16_t` timezone: `(ident[0] << 8) | ident[1]`. -/
def identTz (ident : List Nat) : Int :=
  sign16 (((ident.getD 0 0) <<< 8) ||| ident.getD 1 0)

/-- The absolute author epoch: the C computes
`author_time & 1 ? commit_time + (author_time >> 1)
               : commit_time - (author_time >> 1)`
on `unsigned long`s, so the subtraction wraps modulo `2^64`. -/
def author_time_calc (commit_time d : Nat) : Nat :=
  if d % 2 = 1 then (commit_time + d / 2) % 2^64
  else (commit_time + (2^64 - d / 2 % 2^64)) % 2^64

/-- Bytes of the `tree <hex>\n` line. -/
def treeLine (sha1 : List Nat) : List Nat :=
  strBytes "tree " ++ sha1_to_hex sha1 ++ [10]

/-- Bytes of one `parent <hex>\n` line. -/
def parentLine (sha1 : List Nat) : List Nat :=
  strBytes "parent " ++ sha1_to_hex sha1 ++ [10]

/-- Concatenation of the parent lines for a list of parent hashes. -/
def parentLines : List (List Nat) → List Nat
  | [] => []
  | s :: rest => parentLine s ++ parentLines rest

/-- Bytes of the `author <ident> <epoch> <tz>\n` line. -/
def authorLine (name : List Nat) (t : Nat) (tz : Int) : List Nat :=
  strBytes "author " ++ name ++ [32] ++ natDec t ++ [32] ++ fmt_plus05 tz ++ [10]

/-- Bytes of the `committer <ident> <epoch> <tz>\n` line. -/
def committerLine (name : List Nat) (t : Nat) (tz : Int) : List Nat :=
  strBytes "committer " ++ name ++ [32] ++ natDec t ++ [32] ++ fmt_plus05 tz ++ [10]

/-- State of the commit emit loop: `pos` is `dcp - dst`, `sz` the value of
the C `size` variable (an `unsigned long`), `out` the bytes written so far
at positions `[0, pos)`. -/
structure EmitState where
  pos : Nat
  sz : Nat
  out : List Nat
deriving Repr

/-- One checked emit step of `pv4_get_commit`:
`len = snprintf(dcp, size, ...); if (len >= size) die("overflow");
dcp += len; size -= len;`.  `snprintf` writes at most
`min (len+1) size` bytes at `pos` (content truncated to `size - 1` plus a
terminator; nothing when `size` is zero); a write extending past the
`alloc + 1` bytes `xmallocz(alloc)` provides is heap corruption
(`.crash`).  When the guard passes the line was written untruncated. -/
def emit_checked (alloc : Nat) (line : List Nat) (s : EmitState) :
    Except Err EmitState :=
  let len := line.length
  let extent := if s.sz = 0 then 0 else min (len + 1) s.sz
  if alloc + 1 < s.pos + extent then .error .crash
  else if s.sz ≤ len then .error .die
  else .ok ⟨s.pos + len, s.sz - len, s.out ++ line⟩

/-- The unchecked emit of the `tree` line: the source advances
`dcp += len; size -= len;` with no overflow test, so `size` (an
`unsigned long`) wraps modulo `2^64` when the line did not fit, and the
buffer keeps only the truncated prefix `snprintf` actually wrote. -/
def emit_unchecked (alloc : Nat) (line : List Nat) (s : EmitState) :
    Except Err EmitState :=
  let len := line.length
  let extent := if s.sz = 0 then 0 else min (len + 1) s.sz
  if alloc + 1 < s.pos + extent then .error .crash
  else
    .ok ⟨s.pos + len, (s.sz + (2^64 - len % 2^64)) % 2^64,
      s.out ++ (if s.sz = 0 then [] else line.take (min len (s.sz - 1)))⟩

/-- The parent loop of `pv4_get_commit`: `while (nb_parents--)` resolves a
hash reference and emits one checked `parent` line.  Returns the final emit
state and the stream bytes consumed. -/
def read_parents (p : PackedGit) (alloc : Nat) :
    List Nat → Nat → EmitState → Except Err (EmitState × Nat)
  | _, 0, s => .ok (s, 0)
  | buf, k + 1, s =>
    match get_sha1ref p buf with
    | .error e => .error e
    | .ok (sha1, n) =>
      match emit_checked alloc (parentLine sha1) s with
      | .error e => .error e
      | .ok s' =>
        match read_parents p alloc (buf.drop n) k s' with
        | .error e => .error e
        | .ok (s'', m) => .ok (s'', n + m)

/-- `pv4_get_commit` does not test `get_identref`'s result for `NULL`
before reading `ident[0]`; a `NULL` return is dereferenced (undefined
behaviour, `.crash`). -/
def deref (x : Except Err (List Nat × Nat)) : Except Err (List Nat × Nat) :=
  match x with
  | .error .fail => .error .crash
  | x => x

/-- `pv4_get_commit`: reconstruct a commit of declared size `size0` from the
stream at `offset`.  In source order: tree hashref and unchecked `tree`
line; parent-count varint and checked `parent` lines; commit-time varint
(`unsigned long`); committer identref; author-time-delta varint; author
identref; checked `author` then `committer` lines (output order swaps the
identities back); a header-overrun guard (`scp - src > avail` dies); then
the message is inflated into the remaining `size` bytes, failing (freeing
the buffer, returning `NULL`) unless the stream ends having produced
exactly that many. -/
def pv4_get_commit (p : PackedGit) (offset size0 : Nat) : Except Err (List Nat) :=
  let src := p.data.drop offset
  let avail := src.length
  match get_sha1ref p src with
  | .error e => .error e
  | .ok (sha1, c1) =>
    match emit_unchecked size0 (treeLine sha1) ⟨0, size0, []⟩ with
    | .error e => .error e
    | .ok s1 =>
      match decode_varint (src.drop c1) with
      | none => .error .crash
      | some (np0, c2) =>
        match read_parents p size0 (src.drop (c1 + c2)) (np0 % 2^32) s1 with
        | .error e => .error e
        | .ok (s2, c3) =>
          match decode_varint (src.drop (c1 + c2 + c3)) with
          | none => .error .crash
          | some (ct0, c4) =>
            match deref (get_identref p (src.drop (c1 + c2 + c3 + c4))) with
            | .error e => .error e
            | .ok (cIdent, c5) =>
              match decode_varint (src.drop (c1 + c2 + c3 + c4 + c5)) with
              | none => .error .crash
              | some (d0, c6) =>
                match deref (get_identref p (src.drop (c1 + c2 + c3 + c4 + c5 + c6))) with
                | .error e => .error e
                | .ok (aIdent, c7) =>
                  match emit_checked size0
                      (authorLine (identName aIdent)
                        (author_time_calc (ct0 % 2^64) (d0 % 2^64))
                        (identTz aIdent)) s2 with
                  | .error e => .error e
                  | .ok s3 =>
                    match emit_checked size0
                        (committerLine (identName cIdent) (ct0 % 2^64)
                          (identTz cIdent)) s3 with
                    | .error e => .error e
                    | .ok s4 =>
                      if avail < c1 + c2 + c3 + c4 + c5 + c6 + c7 then .error .die
                      else
                        match p.inflateAt (offset + (c1 + c2 + c3 + c4 + c5 + c6 + c7)) with
                        | none => .error .fail
                        | some msg =>
                          if msg.length ≠ s4.sz then .error .fail
                          else .ok (s4.out ++ msg)

/-- Modelled from the spec (§4.6, §6): the pack-v4 tree object type tag
checked against the low four bits of the final object-header byte.  The
defining header (`cache.h`) is not among the sources under review; no claim
depends on the tag's numeric value, only on the equality test. -/
def OBJ_PV4_TREE : Nat := 9

/-- The object-header skip of `decode_entries` (`parse_hdr` path):
`while (*scp & 128) if (++scp - src >= avail - 20) return -1;` then the
final byte's low four bits must equal the tree tag.  `lim` is the C value
`avail - 20`, computed on `unsigned long`s (it wraps when `avail < 20`).
Returns the bytes consumed including the type byte. -/
def skip_hdr_go : List Nat → Nat → Nat → Except Err Nat
  | [], _, _ => .error .crash
  | b :: rest, consumed, lim =>
    if b &&& 128 = 0 then
      if b &&& 15 ≠ OBJ_PV4_TREE then .error .fail else .ok (consumed + 1)
    else
      if lim ≤ consumed + 1 then .error .fail
      else skip_hdr_go rest (consumed + 1) lim

/-- Skip the object header at the head of `src` given `avail` readable
bytes (see `skip_hdr_go`). -/
def skip_hdr (src : List Nat) (avail : Nat) : Except Err Nat :=
  skip_hdr_go src 0 ((avail + (2^64 - 20)) % 2^64)

/-- Entry of `decode_entries` up to and including the bounds check: skip the
object header when `parse_hdr` is set, decode the `nb_entries` varint (an
`unsigned int`), and fail unless the cursor advanced, `start ≤ nb_entries`
and `count ≤ nb_entries - start`.  Returns the offset just past the
`nb_entries` varint, where the entry loop begins. -/
def de_enter (p : PackedGit) (offset start count : Nat) (parse_hdr : Bool) :
    Except Err Nat :=
  let src := p.data.drop offset
  let avail := src.length
  match (match parse_hdr with
         | true => skip_hdr src avail
         | false => .ok 0) with
  | .error e => .error e
  | .ok hc =>
    match decode_varint (src.drop hc) with
    | none => .error .crash
    | some (v, n) =>
      let nb_entries := v % 2^32
      if hc + n = 0 ∨ nb_entries < start ∨ nb_entries - start < count then
        .error .fail
      else .ok (offset + hc + n)

/-- Skipping the hash reference of a tree entry that lies in the skip
region: `if (!*scp) scp += 1 + 20; else while (*scp++ & 128);`.  Returns
the bytes consumed. -/
def skip_sha1ref (buf : List Nat) : Option Nat :=
  match buf with
  | [] => none
  | b :: rest => if b = 0 then some 21 else (skip_varint (b :: rest))

/-- The copy-source locator of a copy record.  When the count's low bit is
set a varint `index` follows: `index == 0` means a literal 20-byte hash
resolved through `find_pack_entry_one`, otherwise the source offset is
`nth_packed_object_offset(p, index - 1)`.  When the low bit is clear the
sticky `copy_objoffset` of the current frame is reused and no bytes are
consumed.  Returns the (possibly re-)established source offset and the
bytes consumed. -/
def copy_locator (p : PackedGit) (buf : List Nat) (ccRaw copyoff : Nat) :
    Option (Nat × Nat) :=
  if ccRaw % 2 = 1 then
    match decode_varint buf with
    | none => none
    | some (i0, n2) =>
      let index := i0 % 2^32
      if index = 0 then
        if (buf.drop n2).length < 20 then none
        else some (p.findEntry ((buf.drop n2).take 20), n2 + 20)
      else some (p.nthOffset (index - 1), n2)
  else some (copyoff, 0)

/-- The entry loop of `decode_entries`, `fuel`-indexed (the C recursion is
unbounded: mutually referencing copy ranges recurse forever, modelled as
`.crash` at fuel zero).  State: stream `offset`, remaining `start` entries
to skip and `count` entries to emit, remaining output size `sz`
(`*sizep`), and the frame's sticky `copyoff` (`copy_objoffset`, `0` at
frame entry meaning "not yet established").  Each iteration re-requests the
window when fewer than 20 bytes remain (`.fail` when the pack itself has
fewer), reads the `what` varint, and dispatches: skip an inline entry,
emit an inline entry (`<octal mode> <name>\0<20-byte hash>`, failing when
`len + 20 > *sizep`; the C calls `get_pathref` before `get_sha1ref` and
only then tests both results — since `get_pathref` cannot abort, matching
on the hash reference first preserves exactly which failure surfaces), or
process a copy record.  A copy record whose
effective range intersects the emit region recurses into the source tree
(`decode_entries` with `parse_hdr`), i.e. `de_enter` then this loop with a
fresh frame, then continues the current frame with the sticky offset.
Returns the emitted bytes and the remaining size. -/
def de_loop (p : PackedGit) (offset start count sz copyoff : Nat) :
    Nat → Except Err (List Nat × Nat)
  | 0 => .error .crash
  | fuel + 1 =>
    if count = 0 then .ok ([], sz)
    else
      let src := p.data.drop offset
      let avail := src.length
      if avail < 20 then .error .fail
      else
        match decode_varint src with
        | none => .error .crash
        | some (w0, n0) =>
          if n0 = 0 then .error .fail
          else
            let what := w0 % 2^32
            if what % 2 = 0 then
              if start ≠ 0 then
                match skip_sha1ref (src.drop n0) with
                | none => .error .crash
                | some m =>
                  de_loop p (offset + (n0 + m)) (start - 1) count sz copyoff fuel
              else
                match get_sha1ref p (src.drop n0) with
                | .error e => .error e
                | .ok (sha1, m) =>
                  match get_pathref p (what / 2) with
                  | none => .error .fail
                  | some path =>
                    let mode := ((path.getD 0 0) <<< 8) ||| path.getD 1 0
                    let entry := natOct mode ++ [32] ++ identName path ++ [0]
                    let len := entry.length
                    if sz < len + 20 then .error .fail
                    else
                      match de_loop p (offset + (n0 + m)) 0 (count - 1)
                          (sz - (len + 20)) copyoff fuel with
                      | .error e => .error e
                      | .ok (rest, sz') => .ok (entry ++ sha1 ++ rest, sz')
            else
              match decode_varint (src.drop n0) with
              | none => .error .crash
              | some (c0, n1) =>
                let ccRaw := c0 % 2^32
                if ccRaw = 0 then .error .fail
                else
                  match copy_locator p (src.drop (n0 + n1)) ccRaw copyoff with
                  | none => .error .crash
                  | some (copyoff2, n3) =>
                    if copyoff2 = 0 then .error .fail
                    else
                      let cc := ccRaw / 2
                      if cc ≤ start then
                        de_loop p (offset + (n0 + n1 + n3)) (start - cc) count
                          sz copyoff2 fuel
                      else
                        let copy_count := cc - start
                        let copy_start := ((w0 % 2^32) / 2 + start) % 2^32
                        let copy_count := if count < copy_count then count else copy_count
                        match de_enter p copyoff2 copy_start copy_count true with
                        | .error e => .error e
                        | .ok off2 =>
                          match de_loop p off2 copy_start copy_count sz 0 fuel with
                          | .error e => .error e
                          | .ok (outA, szA) =>
                            match de_loop p (offset + (n0 + n1 + n3)) 0
                                (count - copy_count) szA copyoff2 fuel with
                            | .error e => .error e
                            | .ok (outR, szR) => .ok (outA ++ outR, szR)

/-- `decode_entries`: (optionally) parse the referenced tree's framing,
check the requested range against its declared entry count, then run the
entry loop with a fresh frame (no sticky source offset yet). -/
def decode_entries (p : PackedGit) (offset start count sz : Nat)
    (parse_hdr : Bool) (fuel : Nat) : Except Err (List Nat × Nat) :=
  match de_enter p offset start count parse_hdr with
  | .error e => .error e
  | .ok off2 => de_loop p off2 start count sz 0 fuel

/-- `pv4_get_tree`: read the tree's `nb_entries` varint (checking the
cursor advanced), then re-emit entries `[0, nb_entries)` via
`decode_entries` at the same offset (which re-parses the varint) with
`parse_hdr` clear.  The result is freed and `NULL` returned unless the
loop succeeds having consumed exactly `size` output bytes. -/
def pv4_get_tree (p : PackedGit) (offset size fuel : Nat) : Except Err (List Nat) :=
  let src := p.data.drop offset
  match decode_varint src with
  | none => .error .crash
  | some (v, n) =>
    if n = 0 then .error .fail
    else
      match decode_entries p offset 0 (v % 2^32) size false fuel with
      | .error e => .error e
      | .ok (out, szRem) => if szRem ≠ 0 then .error .fail else .ok out

/-- Path dictionary with one record: mode `0o100644`, name `R`. -/
def pathDict0 : Pv4Dict := ⟨[129, 164, 82, 0], [0]⟩

/-- Identity dictionary with two records: timezone `+0000` names `a`, `b`. -/
def identDict0 : Pv4Dict := ⟨[0, 0, 97, 0, 0, 0, 98, 0], [0, 4]⟩

/-- A pack holding one well-formed commit at offset 0: inline tree hash
(twenty `0x11` bytes), no parents, commit time 5, committer identity 0,
author-time delta 0, author identity 1, message `hi\n`. -/
def Pok : PackedGit :=
  { num_objects := 0, sha1_table := [], ident_dict := identDict0,
    path_dict := pathDict0, findEntry := fun _ => 0, nthOffset := fun _ => 0,
    inflateAt := fun _ => some (strBytes "hi\n"),
    data := [0] ++ List.replicate 20 17 ++ [0, 5, 0, 0, 1] }

/-- A pack holding, at offset 3, a tree `A` of two inline entries (hashes
twenty `0x22` and twenty `0xAA` bytes, both path index 0), and at offset 0 a
frame `B` consisting of one copy record: entries `[1, 2)` of `A`, source
object given by hash-table index 1 (`nthOffset 0 = 3`). -/
def Pc2 : PackedGit :=
  { num_objects := 1, sha1_table := [], ident_dict := identDict0,
    path_dict := pathDict0, findEntry := fun _ => 0, nthOffset := fun _ => 3,
    inflateAt := fun _ => none,
    data := [3, 3, 1] ++ [9, 2]
      ++ ([0, 0] ++ List.replicate 20 34) ++ ([0, 0] ++ List.replicate 20 170) }

/-- A pack holding one well-formed tree at offset 0: one inline entry, path
index 0, hash twenty `0xCC` bytes. -/
def Ptree : PackedGit :=
  { num_objects := 0, sha1_table := [], ident_dict := identDict0,
    path_dict := pathDict0, findEntry := fun _ => 0, nthOffset := fun _ => 0,
    inflateAt := fun _ => none,
    data := [1, 0, 0] ++ List.replicate 20 204 }

/-- A pack holding a tree with `nb_entries = 0` at offset 0. -/
def Pnb0 : PackedGit :=
  { num_objects := 0, sha1_table := [], ident_dict := identDict0,
    path_dict := pathDict0, findEntry := fun _ => 0, nthOffset := fun _ => 0,
    inflateAt := fun _ => none, data := [0] }

/-- A pack of three objects whose mapped hash-table region holds four
20-byte groups: the three table entries (`0x01`, `0x02`, `0x03` bytes) and
the twenty `0x09` bytes the index file maps immediately after the table. -/
def P3 : PackedGit :=
  { num_objects := 3,
    sha1_table := List.replicate 20 1 ++ List.replicate 20 2
      ++ List.replicate 20 3 ++ List.replicate 20 9,
    ident_dict := identDict0, path_dict := pathDict0, findEntry := fun _ => 0,
    nthOffset := fun _ => 0, inflateAt := fun _ => none, data := [] }

/-- A pack whose dictionary stream at offset 0 declares size 3 and inflates
to the single minimal record `[0, 0, 0]` (two prefix bytes, empty string,
NUL). -/
def P4a : PackedGit :=
  { num_objects := 0, sha1_table := [], ident_dict := identDict0,
    path_dict := pathDict0, findEntry := fun _ => 0, nthOffset := fun _ => 0,
    inflateAt := fun _ => some [0, 0, 0], data := [3] }

/-- A pack whose dictionary stream at offset 0 declares size 8 and inflates
to two 4-byte records (`0 0 'a' 0`, `0 0 'b' 0`) — a well-formed
dictionary whose last record is longer than the minimum. -/
def P4c : PackedGit :=
  { num_objects := 0, sha1_table := [], ident_dict := identDict0,
    path_dict := pathDict0, findEntry := fun _ => 0, nthOffset := fun _ => 0,
    inflateAt := fun _ => some [0, 0, 97, 0, 0, 0, 98, 0], data := [8] }

/-- A pack whose dictionary stream at offset 0 declares size 7 and inflates
to a 4-byte record (`0 0 'a' 0`) followed by a minimal 3-byte record
(`0 0 0`). -/
def P4b : PackedGit :=
  { num_objects := 0, sha1_table := [], ident_dict := identDict0,
    path_dict := pathDict0, findEntry := fun _ => 0, nthOffset := fun _ => 0,
    inflateAt := fun _ => some [0, 0, 97, 0, 0, 0, 0], data := [7] }

/-- A pack of two objects whose commit stream at offset 0 opens with an
indexed hash reference carrying index 5 — out of range, since
`num_objects + 1 = 3`. -/
def P9 : PackedGit :=
  { num_objects := 2, sha1_table := List.replicate 60 1,
    ident_dict := identDict0, path_dict := pathDict0, findEntry := fun _ => 0,
    nthOffset := fun _ => 0, inflateAt := fun _ => none, data := [5] }

/-- A pack whose tree stream at offset 0 declares two entries but holds no
entry bytes (fewer than twenty bytes remain), so the entry loop fails. -/
def Ptree9 : PackedGit :=
  { num_objects := 0, sha1_table := [], ident_dict := identDict0,
    path_dict := pathDict0, findEntry := fun _ => 0, nthOffset := fun _ => 0,
    inflateAt := fun _ => none, data := [2] }

/-- A pack whose identity dictionary is empty, with a commit stream at
offset 0 reaching the committer identity reference, which is therefore out
of range. -/
def Pid9 : PackedGit :=
  { num_objects := 0, sha1_table := [], ident_dict := ⟨[], []⟩,
    path_dict := pathDict0, findEntry := fun _ => 0, nthOffset := fun _ => 0,
    inflateAt := fun _ => none,
    data := [0] ++ List.replicate 20 17 ++ [0, 5, 0] }


/-- A pack whose stream at offset 0 is a copy record: `what = 3` (odd),
count varint 2 (nonzero, low bit clear — source-changed flag not set),
padded so a window of at least twenty bytes is available. -/
def Pc8 : PackedGit :=
  { num_objects := 0, sha1_table := [], ident_dict := identDict0,
    path_dict := pathDict0, findEntry := fun _ => 0, nthOffset := fun _ => 3,
    inflateAt := fun _ => none, data := [3, 2] ++ List.replicate 20 0 }

/-- A poisoned emit state: either no output byte remains (`sz = 0`, so any
checked emit dies) or the write position already lies past the allocation
while `sz` is nonzero (so the next `snprintf` writes out of bounds).  The
unchecked `tree` emit leaves exactly such a state when the line did not
fit. -/
def BadSt (alloc : Nat) (s : EmitState) : Prop :=
  s.sz = 0 ∨ (s.sz ≠ 0 ∧ alloc < s.pos)

/-- The parse-and-emit structure a successful `pv4_get_commit` run has: the
header fields in their on-wire order (tree hashref, parent count, parents,
commit time, committer identity, author-time delta, author identity), the
inflated message, and the output laid out as `tree` line, parent lines,
`author` line, `committer` line, message — with total length exactly the
declared size.  Note the output swaps the identities: the committer
identity is resolved at stream position `c1+c2+c3+c4`, before the author's
at `c1+c2+c3+c4+c5+c6`, yet the `author` line is emitted first. -/
def CommitShape (p : PackedGit) (offset size0 : Nat) (out : List Nat) : Prop :=
  ∃ sha1 c1 np0 c2 shas c3 ct0 c4 cIdent c5 d0 c6 aIdent c7 msg,
    get_sha1ref p (p.data.drop offset) = .ok (sha1, c1) ∧
    decode_varint ((p.data.drop offset).drop c1) = some (np0, c2) ∧
    shas.length = np0 % 2^32 ∧
    decode_varint ((p.data.drop offset).drop (c1 + c2 + c3)) = some (ct0, c4) ∧
    get_identref p ((p.data.drop offset).drop (c1 + c2 + c3 + c4)) = .ok (cIdent, c5) ∧
    decode_varint ((p.data.drop offset).drop (c1 + c2 + c3 + c4 + c5)) = some (d0, c6) ∧
    get_identref p ((p.data.drop offset).drop (c1 + c2 + c3 + c4 + c5 + c6)) = .ok (aIdent, c7) ∧
    p.inflateAt (offset + (c1 + c2 + c3 + c4 + c5 + c6 + c7)) = some msg ∧
    out = treeLine sha1 ++ parentLines shas
      ++ authorLine (identName aIdent)
           (author_time_calc (ct0 % 2^64) (d0 % 2^64)) (identTz aIdent)
      ++ committerLine (identName cIdent) (ct0 % 2^64) (identTz cIdent)
      ++ msg ∧
    out.length = size0

/-- The varint decoder always consumes at least one byte when it succeeds. -/
theorem decode_varint_pos {l : List Nat} {v n : Nat}
    (h : decode_varint l = some (v, n)) : 1 ≤ n := by
  match l with
  | [] => simp [decode_varint] at h
  | b :: rest =>
    rw [decode_varint] at h
    split at h
    · injection h with h'
      cases h'
      omega
    · have aux : ∀ (l' : List Nat) (val c : Nat),
          decode_varint.go l' val c = some (v, n) → c + 1 ≤ n := by
        intro l'
        induction l' with
        | nil => intro val c hg; simp [decode_varint.go] at hg
        | cons x xs ih =>
          intro val c hg
          rw [decode_varint.go] at hg
          split at hg
          · injection hg with hg'
            cases hg'
            omega
          · have := ih _ _ hg
            omega
      have := aux _ _ _ h
      omega

/-- A successful 20-byte read returns exactly twenty bytes. -/
theorem read20_ok {buf h : List Nat} (hh : read20 buf = .ok h) : h.length = 20 := by
  rw [read20] at hh
  split at hh
  · exact Except.noConfusion hh
  · injection hh with hh
    subst hh
    simp only [List.length_take]
    omega

/-- A resolved hash reference is always exactly twenty bytes. -/
theorem get_sha1ref_len {p : PackedGit} {buf h : List Nat} {n : Nat}
    (hh : get_sha1ref p buf = .ok (h, n)) : h.length = 20 := by
  match buf with
  | [] => exact Except.noConfusion hh
  | b :: rest =>
    rw [get_sha1ref] at hh
    split at hh
    · cases e : read20 rest with
      | error err => rw [e] at hh; exact Except.noConfusion hh
      | ok g =>
        rw [e] at hh
        injection hh with hh
        cases hh
        exact read20_ok e
    · cases e : decode_varint (b :: rest) with
      | none => rw [e] at hh; exact Except.noConfusion hh
      | some vn =>
        obtain ⟨v, m⟩ := vn
        rw [e] at hh
        simp only at hh
        split at hh
        · exact Except.noConfusion hh
        · cases e2 : read20 (p.sha1_table.drop ((v % 2^32 - 1) * 20)) with
          | error err => rw [e2] at hh; exact Except.noConfusion hh
          | ok g =>
            rw [e2] at hh
            injection hh with hh
            cases hh
            exact read20_ok e2

/-- Hex rendering doubles the byte count. -/
theorem sha1_to_hex_len (l : List Nat) : (sha1_to_hex l).length = 2 * l.length := by
  induction l with
  | nil => rfl
  | cons b rest ih => simp [sha1_to_hex, ih]; omega

/-- The `tree` line of a twenty-byte hash is 46 bytes long. -/
theorem treeLine_len {h : List Nat} (hl : h.length = 20) :
    (treeLine h).length = 46 := by
  simp [treeLine, sha1_to_hex_len, hl, strBytes]

/-- Inversion of a successful checked emit: the line fit strictly below the
remaining size, the write position was still inside the allocation, and the
state advanced by exactly the line. -/
theorem emit_checked_ok {A : Nat} {l : List Nat} {s s' : EmitState}
    (h : emit_checked A l s = .ok s') :
    l.length < s.sz ∧ s.pos ≤ A ∧
      s' = ⟨s.pos + l.length, s.sz - l.length, s.out ++ l⟩ := by
  simp only [emit_checked] at h
  split at h
  · next hsz0 =>
    split at h
    · exact Except.noConfusion h
    · split at h
      · exact Except.noConfusion h
      · next hdie => exact absurd hsz0 (by omega)
  · next hsz0 =>
    split at h
    · exact Except.noConfusion h
    · split at h
      · exact Except.noConfusion h
      · next hcrash hdie =>
        injection h with h
        exact ⟨by omega, by omega, h.symm⟩

/-- A checked emit can only succeed from a state that is not poisoned. -/
theorem emit_checked_not_bad {A : Nat} {l : List Nat} {s s' : EmitState}
    (h : emit_checked A l s = .ok s') : ¬ BadSt A s := by
  obtain ⟨h1, h2, _⟩ := emit_checked_ok h
  intro hb
  cases hb with
  | inl h0 => omega
  | inr h0 => omega

/-- The unchecked `tree` emit from the initial state always succeeds (the
`snprintf` itself never leaves the fresh allocation): the position advances
by the full would-be length, the size wraps modulo `2^64`, and the buffer
keeps the possibly truncated line. -/
theorem emit_unchecked_init (A : Nat) (l : List Nat) :
    emit_unchecked A l ⟨0, A, []⟩ =
      .ok ⟨0 + l.length, (A + (2^64 - l.length % 2^64)) % 2^64,
        [] ++ (if A = 0 then [] else l.take (min l.length (A - 1)))⟩ := by
  simp only [emit_unchecked]
  split
  · rw [if_neg (by omega)]
  · rw [if_neg (show ¬ (A + 1 < 0 + min (l.length + 1) A) by omega)]

/-- When the `tree` line fits strictly, the unchecked emit behaves like a
clean checked emit. -/
theorem emit_unchecked_init_clean {A : Nat} {l : List Nat}
    (h1 : l.length < A) (h2 : A < 2^64) :
    emit_unchecked A l ⟨0, A, []⟩ = .ok ⟨l.length, A - l.length, l⟩ := by
  have hm : l.length % 2^64 = l.length := Nat.mod_eq_of_lt (by omega)
  have hsz : (A + (2^64 - l.length % 2^64)) % 2^64 = A - l.length := by
    rw [hm]; omega
  have hout : (if A = 0 then [] else l.take (min l.length (A - 1))) = l := by
    rw [if_neg (by omega)]
    have : min l.length (A - 1) = l.length := by omega
    rw [this, List.take_length]
  rw [emit_unchecked_init, hsz, hout]
  simp

/-- When the `tree` line does not fit, the unchecked emit leaves a poisoned
state: either the wrapped size is exactly zero, or it is enormous while the
write position already sits past the allocation. -/
theorem emit_unchecked_init_bad {A : Nat} {l : List Nat} {s1 : EmitState}
    (h1 : A ≤ l.length) (h2 : l.length < 2^64)
    (h : emit_unchecked A l ⟨0, A, []⟩ = .ok s1) : BadSt A s1 := by
  rw [emit_unchecked_init] at h
  injection h with h
  subst h
  have hm : l.length % 2^64 = l.length := Nat.mod_eq_of_lt h2
  unfold BadSt
  simp only [hm]
  omega

/-- The parent loop run from a consistent state: it emits exactly one
`parent` line per remaining parent and keeps the state consistent (written
bytes equal the position, position plus remaining size equals the declared
size). -/
theorem read_parents_clean : ∀ (k : Nat) (p : PackedGit) (A : Nat)
    (buf : List Nat) (s s' : EmitState) (c : Nat),
    s.out.length = s.pos → s.pos + s.sz = A →
    read_parents p A buf k s = .ok (s', c) →
    ∃ shas : List (List Nat), shas.length = k ∧
      s'.out = s.out ++ parentLines shas ∧
      s'.out.length = s'.pos ∧ s'.pos + s'.sz = A := by
  intro k
  induction k with
  | zero =>
    intro p A buf s s' c h1 h2 h
    rw [read_parents] at h
    injection h with h
    injection h with hs hc
    subst hs
    exact ⟨[], rfl, by simp [parentLines], h1, h2⟩
  | succ k ih =>
    intro p A buf s s' c h1 h2 h
    rw [read_parents] at h
    cases e1 : get_sha1ref p buf with
    | error err => rw [e1] at h; exact Except.noConfusion h
    | ok pr =>
      obtain ⟨sha1, n⟩ := pr
      rw [e1] at h
      simp only at h
      cases e2 : emit_checked A (parentLine sha1) s with
      | error err => rw [e2] at h; exact Except.noConfusion h
      | ok s1 =>
        rw [e2] at h
        simp only at h
        cases e3 : read_parents p A (buf.drop n) k s1 with
        | error err => rw [e3] at h; exact Except.noConfusion h
        | ok pr2 =>
          obtain ⟨s2, m⟩ := pr2
          rw [e3] at h
          simp only at h
          injection h with h
          injection h with hs hc
          subst hs
          obtain ⟨hlt, hpos, hs1⟩ := emit_checked_ok e2
          have h1' : s1.out.length = s1.pos := by
            rw [hs1]; simp [List.length_append]; omega
          have h2' : s1.pos + s1.sz = A := by
            rw [hs1]; simp; omega
          obtain ⟨shas, hlen, hout, hc1, hc2⟩ := ih p A (buf.drop n) s1 s2 m h1' h2' e3
          refine ⟨sha1 :: shas, by simp [hlen], ?_, hc1, hc2⟩
          rw [hout, hs1]
          simp [parentLines, List.append_assoc]
  
/-- The parent loop run from a poisoned state can only succeed by doing
nothing (zero parents); any actual emit fails. -/
theorem read_parents_bad {p : PackedGit} {A : Nat} {buf : List Nat}
    {k : Nat} {s s' : EmitState} {c : Nat} (hb : BadSt A s)
    (h : read_parents p A buf k s = .ok (s', c)) : s' = s := by
  cases k with
  | zero =>
    rw [read_parents] at h
    injection h with h
    injection h with hs hc
    exact hs.symm
  | succ k =>
    rw [read_parents] at h
    cases e1 : get_sha1ref p buf with
    | error err => rw [e1] at h; exact Except.noConfusion h
    | ok pr =>
      obtain ⟨sha1, n⟩ := pr
      rw [e1] at h
      simp only at h
      cases e2 : emit_checked A (parentLine sha1) s with
      | error err => rw [e2] at h; exact Except.noConfusion h
      | ok s1 => exact absurd hb (emit_checked_not_bad e2)

/-- `deref` only turns a `NULL` return into a crash; a value that survives
it was an ordinary success. -/
theorem deref_ok {x : Except Err (List Nat × Nat)} {y : List Nat × Nat}
    (h : deref x = .ok y) : x = .ok y := by
  cases x with
  | ok z => exact h
  | error e => cases e <;> exact Except.noConfusion h

/-- Master inversion: every successful `pv4_get_commit` run parses the
header fields in on-wire order and lays the output out as `tree` line,
parent lines, `author` line, `committer` line, message, of total length
exactly the declared size. -/
theorem commit_shape {p : PackedGit} {offset size0 : Nat} {out : List Nat}
    (hA : size0 < 2^64)
    (h : pv4_get_commit p offset size0 = .ok out) :
    CommitShape p offset size0 out := by
  simp only [pv4_get_commit] at h
  cases e1 : get_sha1ref p (p.data.drop offset) with
  | error err => rw [e1] at h; exact Except.noConfusion h
  | ok pr1 =>
    obtain ⟨sha1, c1⟩ := pr1
    rw [e1] at h
    simp only at h
    have hsha : sha1.length = 20 := get_sha1ref_len e1
    have htl : (treeLine sha1).length = 46 := treeLine_len hsha
    cases e2 : emit_unchecked size0 (treeLine sha1) ⟨0, size0, []⟩ with
    | error err => rw [e2] at h; exact Except.noConfusion h
    | ok s1 =>
      rw [e2] at h
      simp only at h
      cases e3 : decode_varint ((p.data.drop offset).drop c1) with
      | none => rw [e3] at h; exact Except.noConfusion h
      | some pr2 =>
        obtain ⟨np0, c2⟩ := pr2
        rw [e3] at h
        simp only at h
        cases e4 : read_parents p size0 ((p.data.drop offset).drop (c1 + c2))
            (np0 % 2^32) s1 with
        | error err => rw [e4] at h; exact Except.noConfusion h
        | ok pr3 =>
          obtain ⟨s2, c3⟩ := pr3
          rw [e4] at h
          simp only at h
          cases e5 : decode_varint ((p.data.drop offset).drop (c1 + c2 + c3)) with
          | none => rw [e5] at h; exact Except.noConfusion h
          | some pr4 =>
            obtain ⟨ct0, c4⟩ := pr4
            rw [e5] at h
            simp only at h
            cases e6 : deref (get_identref p
                ((p.data.drop offset).drop (c1 + c2 + c3 + c4))) with
            | error err => rw [e6] at h; exact Except.noConfusion h
            | ok pr5 =>
              obtain ⟨cIdent, c5⟩ := pr5
              rw [e6] at h
              simp only at h
              cases e7 : decode_varint
                  ((p.data.drop offset).drop (c1 + c2 + c3 + c4 + c5)) with
              | none => rw [e7] at h; exact Except.noConfusion h
              | some pr6 =>
                obtain ⟨d0, c6⟩ := pr6
                rw [e7] at h
                simp only at h
                cases e8 : deref (get_identref p
                    ((p.data.drop offset).drop (c1 + c2 + c3 + c4 + c5 + c6))) with
                | error err => rw [e8] at h; exact Except.noConfusion h
                | ok pr7 =>
                  obtain ⟨aIdent, c7⟩ := pr7
                  rw [e8] at h
                  simp only at h
                  cases e9 : emit_checked size0
                      (authorLine (identName aIdent)
                        (author_time_calc (ct0 % 2^64) (d0 % 2^64))
                        (identTz aIdent)) s2 with
                  | error err => rw [e9] at h; exact Except.noConfusion h
                  | ok s3 =>
                    rw [e9] at h
                    simp only at h
                    cases e10 : emit_checked size0
                        (committerLine (identName cIdent) (ct0 % 2^64)
                          (identTz cIdent)) s3 with
                    | error err => rw [e10] at h; exact Except.noConfusion h
                    | ok s4 =>
                      rw [e10] at h
                      simp only at h
                      split at h
                      · exact Except.noConfusion h
                      · cases e11 : p.inflateAt
                            (offset + (c1 + c2 + c3 + c4 + c5 + c6 + c7)) with
                        | none => rw [e11] at h; exact Except.noConfusion h
                        | some msg =>
                          rw [e11] at h
                          simp only at h
                          split at h
                          · exact Except.noConfusion h
                          · next hmsg =>
                            injection h with h
                            subst h
                            have hmsg' : msg.length = s4.sz := by omega
                            -- the tree line must have fit
                            have hfit : 46 < size0 := by
                              by_contra hno
                              have hbad : BadSt size0 s1 :=
                                emit_unchecked_init_bad
                                  (by omega) (by omega) e2
                              have hs2 : s2 = s1 := read_parents_bad hbad e4
                              exact (emit_checked_not_bad e9) (hs2 ▸ hbad)
                            have hcl := emit_unchecked_init_clean
                              (l := treeLine sha1) (by omega) hA
                            rw [hcl] at e2
                            injection e2 with e2
                            subst e2
                            obtain ⟨shas, hslen, hout2, hcl1, hcl2⟩ :=
                              read_parents_clean _ p size0 _ _ _ _
                                rfl
                                (by
                                  show (treeLine sha1).length +
                                    (size0 - (treeLine sha1).length) = size0
                                  omega)
                                e4
                            obtain ⟨ha1, ha2, hs3⟩ := emit_checked_ok e9
                            obtain ⟨hb1, hb2, hs4⟩ := emit_checked_ok e10
                            have hp3 : s3.pos = s2.pos + (authorLine (identName aIdent)
                                (author_time_calc (ct0 % 2^64) (d0 % 2^64))
                                (identTz aIdent)).length := by rw [hs3]
                            have hz3 : s3.sz = s2.sz - (authorLine (identName aIdent)
                                (author_time_calc (ct0 % 2^64) (d0 % 2^64))
                                (identTz aIdent)).length := by rw [hs3]
                            have ho3 : s3.out = s2.out ++ authorLine (identName aIdent)
                                (author_time_calc (ct0 % 2^64) (d0 % 2^64))
                                (identTz aIdent) := by rw [hs3]
                            have hp4 : s4.pos = s3.pos + (committerLine (identName cIdent)
                                (ct0 % 2^64) (identTz cIdent)).length := by rw [hs4]
                            have hz4 : s4.sz = s3.sz - (committerLine (identName cIdent)
                                (ct0 % 2^64) (identTz cIdent)).length := by rw [hs4]
                            have ho4 : s4.out = s3.out ++ committerLine (identName cIdent)
                                (ct0 % 2^64) (identTz cIdent) := by rw [hs4]
                            have hout2' : s2.out = treeLine sha1 ++ parentLines shas := hout2
                            refine ⟨sha1, c1, np0, c2, shas, c3, ct0, c4,
                              cIdent, c5, d0, c6, aIdent, c7, msg,
                              e1, e3, hslen, e5, deref_ok e6, e7, deref_ok e8,
                              e11, ?_, ?_⟩
                            · simp only [ho4, ho3, hout2', List.append_assoc]
                            · have hlen2 : s2.out.length = s2.pos := hcl1
                              rw [List.length_append, ho4, ho3]
                              simp only [List.length_append]
                              rw [hz3] at hb1
                              omega

/-- Size bookkeeping of the tree entry loop: however the loop succeeds, the
bytes it emitted plus the size it leaves equal the size it started from. -/
theorem de_loop_len : ∀ (fuel : Nat) (p : PackedGit)
    (offset start count sz copyoff : Nat) (out : List Nat) (szr : Nat),
    de_loop p offset start count sz copyoff fuel = .ok (out, szr) →
    out.length + szr = sz := by
  intro fuel
  induction fuel with
  | zero =>
    intro p offset start count sz copyoff out szr h
    exact Except.noConfusion h
  | succ fuel ih =>
    intro p offset start count sz copyoff out szr h
    simp only [de_loop] at h
    by_cases hcnt : count = 0
    · rw [if_pos hcnt] at h
      injection h with h
      injection h with h1 h2
      subst h1
      subst h2
      simp
    · rw [if_neg hcnt] at h
      by_cases hav : (List.drop offset p.data).length < 20
      · rw [if_pos hav] at h
        exact Except.noConfusion h
      · rw [if_neg hav] at h
        cases e1 : decode_varint (List.drop offset p.data) with
        | none => rw [e1] at h; exact Except.noConfusion h
        | some pr1 =>
          obtain ⟨w0, n0⟩ := pr1
          rw [e1] at h
          simp only at h
          by_cases hn0 : n0 = 0
          · rw [if_pos hn0] at h
            exact Except.noConfusion h
          · rw [if_neg hn0] at h
            by_cases hev : w0 % 2^32 % 2 = 0
            · rw [if_pos hev] at h
              by_cases hst : start ≠ 0
              · rw [if_pos hst] at h
                cases e2 : skip_sha1ref (List.drop n0 (List.drop offset p.data)) with
                | none => rw [e2] at h; exact Except.noConfusion h
                | some m =>
                  rw [e2] at h
                  simp only at h
                  exact ih p _ _ _ _ _ _ _ h
              · rw [if_neg hst] at h
                cases e2 : get_sha1ref p (List.drop n0 (List.drop offset p.data)) with
                | error err => rw [e2] at h; exact Except.noConfusion h
                | ok pr2 =>
                  obtain ⟨sha1, m⟩ := pr2
                  rw [e2] at h
                  simp only at h
                  cases e3 : get_pathref p (w0 % 2^32 / 2) with
                  | none => rw [e3] at h; exact Except.noConfusion h
                  | some path =>
                    rw [e3] at h
                    simp only at h
                    by_cases hsz : sz < (natOct (path.getD 0 0 <<< 8 ||| path.getD 1 0)
                        ++ [32] ++ identName path ++ [0]).length + 20
                    · rw [if_pos hsz] at h
                      exact Except.noConfusion h
                    · rw [if_neg hsz] at h
                      cases e4 : de_loop p (offset + (n0 + m)) 0 (count - 1)
                          (sz - ((natOct (path.getD 0 0 <<< 8 ||| path.getD 1 0)
                            ++ [32] ++ identName path ++ [0]).length + 20))
                          copyoff fuel with
                      | error err => rw [e4] at h; exact Except.noConfusion h
                      | ok pr3 =>
                        obtain ⟨rest, sz2⟩ := pr3
                        rw [e4] at h
                        simp only at h
                        injection h with h
                        injection h with h1 h2
                        subst h1
                        subst h2
                        have hrec := ih p _ _ _ _ _ _ _ e4
                        have hsha : sha1.length = 20 := get_sha1ref_len e2
                        simp only [List.length_append, hsha]
                        simp only [List.length_append] at hrec hsz
                        omega
            · rw [if_neg hev] at h
              cases e2 : decode_varint (List.drop n0 (List.drop offset p.data)) with
              | none => rw [e2] at h; exact Except.noConfusion h
              | some pr2 =>
                obtain ⟨c0, n1⟩ := pr2
                rw [e2] at h
                simp only at h
                by_cases hcc : c0 % 2^32 = 0
                · rw [if_pos hcc] at h
                  exact Except.noConfusion h
                · rw [if_neg hcc] at h
                  cases e3 : copy_locator p (List.drop (n0 + n1) (List.drop offset p.data))
                      (c0 % 2^32) copyoff with
                  | none => rw [e3] at h; exact Except.noConfusion h
                  | some pr3 =>
                    obtain ⟨copyoff2, n3⟩ := pr3
                    rw [e3] at h
                    simp only at h
                    by_cases hco : copyoff2 = 0
                    · rw [if_pos hco] at h
                      exact Except.noConfusion h
                    · rw [if_neg hco] at h
                      by_cases hsk : c0 % 2^32 / 2 ≤ start
                      · rw [if_pos hsk] at h
                        exact ih p _ _ _ _ _ _ _ h
                      · rw [if_neg hsk] at h
                        cases e4 : de_enter p copyoff2
                            ((w0 % 2^32 / 2 + start) % 2^32)
                            (if count < c0 % 2^32 / 2 - start then count
                              else c0 % 2^32 / 2 - start) true with
                        | error err => rw [e4] at h; exact Except.noConfusion h
                        | ok off2 =>
                          rw [e4] at h
                          simp only at h
                          cases e5 : de_loop p off2
                              ((w0 % 2^32 / 2 + start) % 2^32)
                              (if count < c0 % 2^32 / 2 - start then count
                                else c0 % 2^32 / 2 - start) sz 0 fuel with
                          | error err => rw [e5] at h; exact Except.noConfusion h
                          | ok pr4 =>
                            obtain ⟨outA, szA⟩ := pr4
                            rw [e5] at h
                            simp only at h
                            cases e6 : de_loop p (offset + (n0 + n1 + n3)) 0
                                (count - (if count < c0 % 2^32 / 2 - start then count
                                  else c0 % 2^32 / 2 - start)) szA copyoff2 fuel with
                            | error err => rw [e6] at h; exact Except.noConfusion h
                            | ok pr5 =>
                              obtain ⟨outR, szR⟩ := pr5
                              rw [e6] at h
                              simp only at h
                              injection h with h
                              injection h with h1 h2
                              subst h1
                              subst h2
                              have hA := ih p _ _ _ _ _ _ _ e5
                              have hR := ih p _ _ _ _ _ _ _ e6
                              simp only [List.length_append]
                              omega

/-- Size bookkeeping of `decode_entries`: emitted bytes plus leftover size
equal the size passed in. -/
theorem decode_entries_len {p : PackedGit} {offset start count sz : Nat}
    {parse_hdr : Bool} {fuel : Nat} {out : List Nat} {szr : Nat}
    (h : decode_entries p offset start count sz parse_hdr fuel = .ok (out, szr)) :
    out.length + szr = sz := by
  rw [decode_entries] at h
  cases e : de_enter p offset start count parse_hdr with
  | error err => rw [e] at h; exact Except.noConfusion h
  | ok off2 =>
    rw [e] at h
    simp only at h
    exact de_loop_len fuel p off2 start count sz 0 out szr h

/-- The entry loop asked to emit zero entries emits nothing and leaves the
size untouched. -/
theorem de_loop_count0 {p : PackedGit} {offset start sz copyoff fuel : Nat}
    {r : List Nat × Nat}
    (h : de_loop p offset start 0 sz copyoff fuel = .ok r) : r = ([], sz) := by
  cases fuel with
  | zero => exact Except.noConfusion h
  | succ fuel =>
    rw [de_loop] at h
    rw [if_pos rfl] at h
    exact (Except.ok.inj h).symm

/-- Claim C1: for every object (commit or tree) the decoder successfully
returns, the output buffer holds exactly the declared `size` bytes:
`pv4_get_commit` succeeds only when the inflated message exactly fills the
bytes left after the header lines, `pv4_get_tree` succeeds only when the
emitted entries consume exactly `size` bytes, and a tree whose entry-count
varint decodes to zero succeeds only with declared size 0, yielding an
empty buffer. -/
theorem C1_output_exact_size :
    (∀ (p : PackedGit) (offset size0 : Nat) (out : List Nat),
       size0 < 2^64 → pv4_get_commit p offset size0 = .ok out →
       out.length = size0) ∧
    (∀ (p : PackedGit) (offset size0 fuel : Nat) (out : List Nat),
       pv4_get_tree p offset size0 fuel = .ok out → out.length = size0) ∧
    (∀ (p : PackedGit) (offset size0 fuel : Nat) (out : List Nat) (v n : Nat),
       decode_varint (p.data.drop offset) = some (v, n) → v % 2^32 = 0 →
       pv4_get_tree p offset size0 fuel = .ok out → size0 = 0 ∧ out = []) := by
  refine ⟨?_, ?_, ?_⟩
  · intro p offset size0 out hA h
    obtain ⟨_, _, _, _, _, _, _, _, _, _, _, _, _, _, _, hh⟩ := commit_shape hA h
    exact hh.2.2.2.2.2.2.2.2.2
  · intro p offset size0 fuel out h
    rw [pv4_get_tree] at h
    cases e1 : decode_varint (p.data.drop offset) with
    | none => rw [e1] at h; exact Except.noConfusion h
    | some pr =>
      obtain ⟨v, n⟩ := pr
      rw [e1] at h
      simp only at h
      split at h
      · exact Except.noConfusion h
      · cases e2 : decode_entries p offset 0 (v % 2^32) size0 false fuel with
        | error err => rw [e2] at h; exact Except.noConfusion h
        | ok pr2 =>
          obtain ⟨o, szRem⟩ := pr2
          rw [e2] at h
          simp only at h
          split at h
          · exact Except.noConfusion h
          · next hrem =>
            injection h with h
            subst h
            have := decode_entries_len e2
            omega
  · intro p offset size0 fuel out v n hv hv0 h
    rw [pv4_get_tree] at h
    rw [hv] at h
    simp only at h
    split at h
    · exact Except.noConfusion h
    · rw [hv0] at h
      cases e2 : decode_entries p offset 0 0 size0 false fuel with
      | error err => rw [e2] at h; exact Except.noConfusion h
      | ok pr2 =>
        obtain ⟨o, szRem⟩ := pr2
        have hzero : (o, szRem) = ([], size0) := by
          rw [decode_entries] at e2
          cases e3 : de_enter p offset 0 0 false with
          | error err => rw [e3] at e2; exact Except.noConfusion e2
          | ok off2 =>
            rw [e3] at e2
            simp only at e2
            exact de_loop_count0 e2
        injection hzero with hz1 hz2
        rw [e2] at h
        simp only at h
        split at h
        · exact Except.noConfusion h
        · next hrem =>
          injection h with h
          subst h
          constructor
          · omega
          · rw [hz1]

/-- Witness for C1 at concrete packs: a decoded commit of declared size 86,
a decoded tree of declared size 29, and a zero-entry tree of declared
size 0. -/
theorem C1_output_exact_size_witness :
    ((pv4_get_commit Pok 0 86).toOption.getD []).length = 86 ∧
    ((pv4_get_tree Ptree 0 29 3).toOption.getD []).length = 29 ∧
    (0 = 0 ∧ (pv4_get_tree Pnb0 0 0 2).toOption.getD [42] = []) :=
  ⟨C1_output_exact_size.1 Pok 0 86 _ (by norm_num) rfl,
   C1_output_exact_size.2.1 Ptree 0 29 3 _ rfl,
   C1_output_exact_size.2.2 Pnb0 0 0 2 _ 0 1 rfl rfl rfl⟩

/-- Claim C5: every successfully decoded commit consists, in order, of one
`tree` line, one `parent` line per encoded parent (none when the encoded
count is zero), exactly one `author` line, exactly one `committer` line,
then the inflated message — and the `author` line precedes the `committer`
line in the output even though the stream stores the committer identity
(at cursor `c1+c2+c3+c4`) before the author identity (at
`c1+c2+c3+c4+c5+c6`), as the `CommitShape` equations exhibit. -/
theorem C5_commit_header_order (p : PackedGit) (offset size0 : Nat)
    (out : List Nat) (hA : size0 < 2^64)
    (h : pv4_get_commit p offset size0 = .ok out) :
    CommitShape p offset size0 out :=
  commit_shape hA h

/-- Witness for C5: the concrete commit of `Pok` (zero parents). -/
theorem C5_commit_header_order_witness :
    CommitShape Pok 0 86 ((pv4_get_commit Pok 0 86).toOption.getD []) :=
  C5_commit_header_order Pok 0 86 _ (by norm_num) rfl

/-- Claim C6: the emitted author timestamp comes from the author-time-delta
varint `d` as `commit_time + (d >> 1)` when `d`'s low bit is set and
`commit_time - (d >> 1)` when clear (`unsigned long` arithmetic, so the sum
is modulo `2^64` and the difference exact whenever it does not underflow);
`d = 0` leaves the author time equal to the commit time.  The last
conjunct ties the formula to the emission: every successful commit decode
has the `CommitShape` layout, whose `author` line carries
`author_time_calc` of the commit-time and delta varints. -/
theorem C6_author_time (ct d : Nat) (hct : ct < 2^64) (hd : d < 2^64) :
    (d % 2 = 1 → author_time_calc ct d = (ct + d / 2) % 2^64) ∧
    (d % 2 = 0 → d / 2 ≤ ct → author_time_calc ct d = ct - d / 2) ∧
    (d = 0 → author_time_calc ct d = ct) ∧
    (∀ (p : PackedGit) (offset size0 : Nat) (out : List Nat),
      size0 < 2^64 → pv4_get_commit p offset size0 = .ok out →
      CommitShape p offset size0 out) := by
  refine ⟨?_, ?_, ?_, fun p offset size0 out hA h => commit_shape hA h⟩
  · intro h1
    rw [author_time_calc, if_pos h1]
  · intro h0 hle
    rw [author_time_calc, if_neg (by omega)]
    have hm : d / 2 % 2^64 = d / 2 := Nat.mod_eq_of_lt (by omega)
    rw [hm]
    omega
  · intro h0
    subst h0
    rw [author_time_calc, if_neg (by omega)]
    omega

/-- Witness for C6 at concrete times: delta 7 (low bit set, `+3`), delta 4
(low bit clear, `-2`), delta 0 (author time = commit time). -/
theorem C6_author_time_witness :
    author_time_calc 1700000000 7 = 1700000003 ∧
    author_time_calc 1700000000 4 = 1699999998 ∧
    author_time_calc 1700000000 0 = 1700000000 ∧
    CommitShape Pok 0 86 ((pv4_get_commit Pok 0 86).toOption.getD []) := by
  have h7 := C6_author_time 1700000000 7 (by norm_num) (by norm_num)
  have h4 := C6_author_time 1700000000 4 (by norm_num) (by norm_num)
  have h0 := C6_author_time 1700000000 0 (by norm_num) (by norm_num)
  refine ⟨?_, ?_, h0.2.2.1 rfl, h0.2.2.2 Pok 0 86 _ (by norm_num) rfl⟩
  · rw [h7.1 rfl]
    norm_num
  · rw [h4.2.1 rfl (by norm_num)]

/-- Claim C3 is wrong about the code: the guard in `get_sha1ref` is
`index - 1 > num_objects`, so the out-of-range index `num_objects + 1`
(here 4, with 3 objects in the pack) is *accepted*, and the returned
"hash" is whatever twenty bytes the index file maps just past the hash
table — not rejected as the claim (and the spec's `[1, num_objects]`
bound) requires.  The in-range indices 1 and `num_objects` and the inline
form (21-byte advance) behave as claimed. -/
theorem C3_index_overflow_accepted :
    get_sha1ref P3 [4] = .ok (List.replicate 20 9, 1) ∧ 4 = P3.num_objects + 1 ∧
    get_sha1ref P3 [1] = .ok (List.replicate 20 1, 1) ∧
    get_sha1ref P3 [3] = .ok (List.replicate 20 3, 1) ∧
    get_sha1ref P3 (0 :: List.replicate 20 7) = .ok (List.replicate 20 7, 21) :=
  ⟨rfl, rfl, rfl, rfl, rfl⟩

/-- Claim C4 is wrong about the code: the counting loop of `load_dict`
walks records only `while (cp < data + dict_size - 3)`, so a final record
that starts exactly at `dict_size - 3` — in particular the single
empty-string record of a size-3 dictionary, or a minimal 3-byte last
record — is never walked, the cursor-equality check fails, and the
dictionary is rejected (`dict size mismatch`), not accepted.  A
dictionary whose last record is longer than three bytes is accepted with
the claimed entry count and offsets. -/
theorem C4_minimal_record_rejected :
    load_dict P4a 0 = none ∧ load_dict P4b 0 = none ∧
    load_dict P4c 0 = some ⟨[0, 0, 97, 0, 0, 0, 98, 0], [0, 4]⟩ :=
  ⟨rfl, rfl, rfl⟩

/-- Claim C7 is wrong about the code: the `tree` line emit has no
`len >= size` check.  With declared size 10, the 46-byte `tree` line is
silently truncated, `size -= len` wraps the `unsigned long` around, and
the following `author`-line `snprintf` writes at `dst + 46` — outside the
11-byte allocation (modelled `.crash`) — instead of the overflow being
detected and fatal at the `tree` emit step.  The contrast: the unchecked
emit the `tree` line uses can never report the fatal overflow (`.die`) at
all, while the checked emit used for the `parent`, `author` and
`committer` lines does exactly that on the same oversized line. -/
theorem C7_tree_line_unchecked :
    pv4_get_commit Pok 0 10 = .error .crash ∧
    (∀ (A : Nat) (l : List Nat) (s : EmitState),
      emit_unchecked A l s ≠ .error .die) ∧
    emit_checked 10 (List.replicate 46 48) ⟨0, 10, []⟩ = .error .die := by
  refine ⟨rfl, ?_, rfl⟩
  intro A l s h
  simp only [emit_unchecked] at h
  split at h <;> split at h <;>
    first
      | exact Err.noConfusion (Except.error.inj h)
      | exact Except.noConfusion h

/-- Counterexample to claim C9: an out-of-range hash-table index in a hash
reference does not free the buffer and return a null result — it aborts
the whole process via `die("bad index...")` (`.die`), before any output
exists. -/
theorem C9_counterexample :
    pv4_get_commit P9 0 46 = .error .die ∧ Err.die ≠ Err.fail :=
  ⟨rfl, by decide⟩

/-- Claim C10: every invocation of `decode_entries` — top-level or
copy-range recursion — succeeds only when the entry-count varint consumed
at least one byte, `start ≤ nb_entries`, and `count ≤ nb_entries - start`
(`nb_entries` being the `unsigned int` value of the varint decoded after
the optional header skip); hence a copy range can never request entries
beyond the referenced tree's declared entry count. -/
theorem C10_range_guard : ∀ (p : PackedGit) (offset start count sz : Nat)
    (parse_hdr : Bool) (fuel : Nat) (r : List Nat × Nat),
    decode_entries p offset start count sz parse_hdr fuel = .ok r →
    ∃ hc v n,
      (parse_hdr = true →
        skip_hdr (p.data.drop offset) (p.data.drop offset).length = .ok hc) ∧
      (parse_hdr = false → hc = 0) ∧
      decode_varint ((p.data.drop offset).drop hc) = some (v, n) ∧
      1 ≤ n ∧ start ≤ v % 2^32 ∧ count ≤ v % 2^32 - start := by
  intro p offset start count sz hdr fuel r h
  rw [decode_entries] at h
  cases e : de_enter p offset start count hdr with
  | error err => rw [e] at h; exact Except.noConfusion h
  | ok off2 =>
    clear h
    simp only [de_enter] at e
    cases hdr with
    | false =>
      simp only at e
      rw [List.drop_zero] at e
      cases e2 : decode_varint (List.drop offset p.data) with
      | none => rw [e2] at e; exact Except.noConfusion e
      | some pr =>
        obtain ⟨v, n⟩ := pr
        rw [e2] at e
        simp only at e
        split at e
        · exact Except.noConfusion e
        · next hguard =>
          refine ⟨0, v, n, fun hf => Bool.noConfusion hf, fun _ => rfl, ?_, ?_, ?_, ?_⟩
          · rw [List.drop_zero]; exact e2
          · exact decode_varint_pos e2
          · omega
          · omega
    | true =>
      simp only at e
      cases e1 : skip_hdr (List.drop offset p.data) (List.drop offset p.data).length with
      | error err => rw [e1] at e; exact Except.noConfusion e
      | ok hc =>
        rw [e1] at e
        simp only at e
        cases e2 : decode_varint (List.drop hc (List.drop offset p.data)) with
        | none => rw [e2] at e; exact Except.noConfusion e
        | some pr =>
          obtain ⟨v, n⟩ := pr
          rw [e2] at e
          simp only at e
          split at e
          · exact Except.noConfusion e
          · next hguard =>
            refine ⟨hc, v, n, fun _ => rfl, fun hf => Bool.noConfusion hf,
              e2, decode_varint_pos e2, ?_, ?_⟩
            · omega
            · omega

/-- Witness for C10 at the concrete copy-range recursion of `Pc2`: the
referenced tree declares two entries and the requested range is
`[1, 2)`. -/
theorem C10_range_guard_witness :
    ∃ hc v n,
      (true = true →
        skip_hdr (Pc2.data.drop 3) (Pc2.data.drop 3).length = .ok hc) ∧
      (true = false → hc = 0) ∧
      decode_varint ((Pc2.data.drop 3).drop hc) = some (v, n) ∧
      1 ≤ n ∧ 1 ≤ v % 2^32 ∧ 1 ≤ v % 2^32 - 1 :=
  C10_range_guard Pc2 3 1 1 29 true 3 _ rfl

/-- Claim C2: when a frame's next record is a copy record referencing
entries `[a, a + n)` of a source tree resolvable in the same pack (here
through a hash-table index locator), the bytes the frame emits for that
record are exactly the bytes `decode_entries` produces when decoding
entries `[a, a + n)` of the source tree directly — and since the source
decode is the same recursive `decode_entries`, the equivalence holds
through nested copy ranges as well. -/
theorem C2_copy_range_equiv (p : PackedGit)
    (offset count sz copyoff fuel a n w0 n0 c0 n1 i0 n2 : Nat)
    (outA outR : List Nat) (szA szR : Nat)
    (hcnt : count ≠ 0)
    (hav : 20 ≤ (p.data.drop offset).length)
    (hw : decode_varint (p.data.drop offset) = some (w0, n0))
    (hn0 : n0 ≠ 0)
    (hodd : w0 % 2^32 % 2 = 1)
    (ha : w0 % 2^32 / 2 = a)
    (hc : decode_varint ((p.data.drop offset).drop n0) = some (c0, n1))
    (hcodd : c0 % 2^32 % 2 = 1)
    (hcc : c0 % 2^32 / 2 = n)
    (hnn : n ≠ 0)
    (hloc : decode_varint ((p.data.drop offset).drop (n0 + n1)) = some (i0, n2))
    (hi : i0 % 2^32 ≠ 0)
    (hoff : p.nthOffset (i0 % 2^32 - 1) ≠ 0)
    (hle : n ≤ count)
    (hA : decode_entries p (p.nthOffset (i0 % 2^32 - 1)) a n sz true fuel
      = .ok (outA, szA))
    (hR : de_loop p (offset + (n0 + n1 + n2)) 0 (count - n) szA
      (p.nthOffset (i0 % 2^32 - 1)) fuel = .ok (outR, szR)) :
    de_loop p offset 0 count sz copyoff (fuel + 1) = .ok (outA ++ outR, szR) := by
  have hlocator : copy_locator p ((p.data.drop offset).drop (n0 + n1))
      (c0 % 2^32) copyoff = some (p.nthOffset (i0 % 2^32 - 1), n2) := by
    rw [copy_locator, if_pos hcodd, hloc]
    simp only
    rw [if_neg hi]
  simp only [de_loop]
  rw [if_neg hcnt, if_neg (show ¬ (p.data.drop offset).length < 20 by omega), hw]
  simp only
  rw [if_neg hn0, if_neg (show ¬ w0 % 2^32 % 2 = 0 by omega), hc]
  simp only
  rw [if_neg (show ¬ c0 % 2^32 = 0 by omega), hlocator]
  simp only
  rw [if_neg hoff, if_neg (show ¬ c0 % 2^32 / 2 ≤ 0 by omega)]
  have hcs : (w0 % 2^32 / 2 + 0) % 2^32 = a := by
    have hb : w0 % 2^32 < 2^32 := Nat.mod_lt _ (by norm_num)
    omega
  have hcc2 : (if count < c0 % 2^32 / 2 - 0 then count else c0 % 2^32 / 2 - 0) = n := by
    rw [if_neg (show ¬ count < c0 % 2^32 / 2 - 0 by omega)]
    omega
  rw [hcs, hcc2]
  rw [decode_entries] at hA
  cases e : de_enter p (p.nthOffset (i0 % 2^32 - 1)) a n true with
  | error err => rw [e] at hA; exact Except.noConfusion hA
  | ok off2 =>
    rw [e] at hA
    dsimp only at hA
    dsimp only
    rw [hA]
    dsimp only
    rw [hR]

/-- Witness for C2: in `Pc2`, frame `B`'s copy record referencing entries
`[1, 2)` of the tree at offset 3 emits exactly the bytes of that entry
(`100644 R\0` followed by the twenty `0xAA` hash bytes), as decoded
directly. -/
theorem C2_copy_range_equiv_witness :
    de_loop Pc2 0 0 1 29 0 (3 + 1) =
      .ok (([49, 48, 48, 54, 52, 52, 32, 82, 0] ++ List.replicate 20 170)
        ++ [], 0) :=
  C2_copy_range_equiv Pc2 0 1 29 0 3 1 1 3 1 3 1 1 1
    ([49, 48, 48, 54, 52, 52, 32, 82, 0] ++ List.replicate 20 170) [] 0 0
    (by decide) (by decide) rfl (by decide) (by norm_num) (by norm_num) rfl
    (by norm_num) (by norm_num) (by decide) rfl (by norm_num) (by decide)
    (by decide) rfl rfl

/-- Claim C8: within one frame of the tree entry decoder the copy-source
offset is sticky.  (1) A frame's first copy record whose count varint has
the low bit clear — no source offset established yet (`copy_objoffset`
still 0) — is a decode error.  (2) A copy record with the flag clear
reuses the offset `o` established earlier in the same frame: no locator
bytes are consumed and `o` is passed on unchanged.  (3) A copy record with
the flag set re-establishes the offset from the locator that follows
(here the hash-table-index form), and that offset replaces `o` for the
rest of the frame. -/
theorem C8_sticky_copy_source :
    (∀ (p : PackedGit) (offset start count sz fuel w0 n0 c0 n1 : Nat),
      count ≠ 0 → 20 ≤ (p.data.drop offset).length →
      decode_varint (p.data.drop offset) = some (w0, n0) → n0 ≠ 0 →
      w0 % 2^32 % 2 = 1 →
      decode_varint ((p.data.drop offset).drop n0) = some (c0, n1) →
      c0 % 2^32 ≠ 0 → c0 % 2^32 % 2 = 0 →
      de_loop p offset start count sz 0 (fuel + 1) = .error .fail) ∧
    (∀ (p : PackedGit) (offset start count sz o fuel w0 n0 c0 n1 : Nat),
      count ≠ 0 → 20 ≤ (p.data.drop offset).length →
      decode_varint (p.data.drop offset) = some (w0, n0) → n0 ≠ 0 →
      w0 % 2^32 % 2 = 1 →
      decode_varint ((p.data.drop offset).drop n0) = some (c0, n1) →
      c0 % 2^32 ≠ 0 → c0 % 2^32 % 2 = 0 → o ≠ 0 →
      c0 % 2^32 / 2 ≤ start →
      de_loop p offset start count sz o (fuel + 1) =
        de_loop p (offset + (n0 + n1 + 0)) (start - c0 % 2^32 / 2) count sz
          o fuel) ∧
    (∀ (p : PackedGit) (offset start count sz o fuel w0 n0 c0 n1 i0 n2 : Nat),
      count ≠ 0 → 20 ≤ (p.data.drop offset).length →
      decode_varint (p.data.drop offset) = some (w0, n0) → n0 ≠ 0 →
      w0 % 2^32 % 2 = 1 →
      decode_varint ((p.data.drop offset).drop n0) = some (c0, n1) →
      c0 % 2^32 ≠ 0 → c0 % 2^32 % 2 = 1 →
      decode_varint ((p.data.drop offset).drop (n0 + n1)) = some (i0, n2) →
      i0 % 2^32 ≠ 0 → p.nthOffset (i0 % 2^32 - 1) ≠ 0 →
      c0 % 2^32 / 2 ≤ start →
      de_loop p offset start count sz o (fuel + 1) =
        de_loop p (offset + (n0 + n1 + n2)) (start - c0 % 2^32 / 2) count sz
          (p.nthOffset (i0 % 2^32 - 1)) fuel) := by
  refine ⟨?_, ?_, ?_⟩
  · intro p offset start count sz fuel w0 n0 c0 n1
      hcnt hav hw hn0 hodd hc hcc0 hflag
    have hlocator : copy_locator p ((p.data.drop offset).drop (n0 + n1))
        (c0 % 2^32) 0 = some (0, 0) := by
      rw [copy_locator, if_neg (by omega)]
    simp only [de_loop]
    rw [if_neg hcnt, if_neg (show ¬ (p.data.drop offset).length < 20 by omega), hw]
    simp only
    rw [if_neg hn0, if_neg (show ¬ w0 % 2^32 % 2 = 0 by omega), hc]
    simp only
    rw [if_neg hcc0, hlocator]
    simp
  · intro p offset start count sz o fuel w0 n0 c0 n1
      hcnt hav hw hn0 hodd hc hcc0 hflag ho hsk
    have hlocator : copy_locator p ((p.data.drop offset).drop (n0 + n1))
        (c0 % 2^32) o = some (o, 0) := by
      rw [copy_locator, if_neg (by omega)]
    simp only [de_loop]
    rw [if_neg hcnt, if_neg (show ¬ (p.data.drop offset).length < 20 by omega), hw]
    simp only
    rw [if_neg hn0, if_neg (show ¬ w0 % 2^32 % 2 = 0 by omega), hc]
    simp only
    rw [if_neg hcc0, hlocator]
    simp only
    rw [if_neg ho, if_pos hsk]
  · intro p offset start count sz o fuel w0 n0 c0 n1 i0 n2
      hcnt hav hw hn0 hodd hc hcc0 hflag hloc hi hoff hsk
    have hlocator : copy_locator p ((p.data.drop offset).drop (n0 + n1))
        (c0 % 2^32) o = some (p.nthOffset (i0 % 2^32 - 1), n2) := by
      rw [copy_locator, if_pos hflag, hloc]
      simp only
      rw [if_neg hi]
    simp only [de_loop]
    rw [if_neg hcnt, if_neg (show ¬ (p.data.drop offset).length < 20 by omega), hw]
    simp only
    rw [if_neg hn0, if_neg (show ¬ w0 % 2^32 % 2 = 0 by omega), hc]
    simp only
    rw [if_neg hcc0, hlocator]
    simp only
    rw [if_neg hoff, if_pos hsk]

/-- Witness for C8 at concrete frames: a first copy with the flag clear
fails; with a prior offset 7 the same record reuses 7; a flag-set record
re-establishes the offset through `Pc2.nthOffset 0 = 3`. -/
theorem C8_sticky_copy_source_witness :
    de_loop Pc8 0 0 1 5 0 (0 + 1) = .error .fail ∧
    de_loop Pc8 0 1 1 5 7 (0 + 1) =
      de_loop Pc8 (0 + (1 + 1 + 0)) (1 - 2 % 2^32 / 2) 1 5 7 0 ∧
    de_loop Pc2 0 1 1 5 9 (0 + 1) =
      de_loop Pc2 (0 + (1 + 1 + 1)) (1 - 3 % 2^32 / 2) 1 5
        (Pc2.nthOffset (1 % 2^32 - 1)) 0 := by
  refine ⟨?_, ?_, ?_⟩
  · exact C8_sticky_copy_source.1 Pc8 0 0 1 5 0 3 1 2 1
      (by decide) (by decide) rfl (by decide) (by norm_num) rfl
      (by norm_num) (by norm_num)
  · exact C8_sticky_copy_source.2.1 Pc8 0 1 1 5 7 0 3 1 2 1
      (by decide) (by decide) rfl (by decide) (by norm_num) rfl
      (by norm_num) (by norm_num) (by decide) (by norm_num)
  · exact C8_sticky_copy_source.2.2 Pc2 0 1 1 5 9 0 3 1 3 1 1 1
      (by decide) (by decide) rfl (by decide) (by norm_num) rfl
      (by norm_num) (by norm_num) rfl (by norm_num) (by decide) (by norm_num)

/-- Claim C9, amended: per-object decode failures inside the tree decoder
surface as a null result to the caller (the partial buffer is freed and the
pack handle untouched) — but not every failure does: an out-of-range
hash-table index in a hash reference aborts the whole process via
`die(...)`, which `pv4_get_commit` propagates, and an out-of-range
identity-dictionary index during commit reconstruction makes `get_identref`
return `NULL`, which `pv4_get_commit` dereferences without a check
(undefined behaviour), rather than returning a null result. -/
theorem C9_failure_propagation :
    (∀ (p : PackedGit) (offset sz : Nat),
      get_sha1ref p (p.data.drop offset) = .error .die →
      pv4_get_commit p offset sz = .error .die) ∧
    (∀ (p : PackedGit) (offset sz fuel v n : Nat),
      decode_varint (p.data.drop offset) = some (v, n) → n ≠ 0 →
      decode_entries p offset 0 (v % 2^32) sz false fuel = .error .fail →
      pv4_get_tree p offset sz fuel = .error .fail) ∧
    (∀ (p : PackedGit) (offset sz : Nat) (sha1 : List Nat) (c1 np0 c2 ct0 c4 : Nat),
      get_sha1ref p (p.data.drop offset) = .ok (sha1, c1) →
      decode_varint ((p.data.drop offset).drop c1) = some (np0, c2) →
      np0 % 2^32 = 0 →
      decode_varint ((p.data.drop offset).drop (c1 + c2)) = some (ct0, c4) →
      get_identref p ((p.data.drop offset).drop (c1 + c2 + c4)) = .error .fail →
      pv4_get_commit p offset sz = .error .crash) := by
  refine ⟨?_, ?_, ?_⟩
  · intro p offset sz h
    simp only [pv4_get_commit]
    rw [h]
  · intro p offset sz fuel v n hv hn hde
    simp only [pv4_get_tree]
    rw [hv]
    simp only
    rw [if_neg hn, hde]
  · intro p offset sz sha1 c1 np0 c2 ct0 c4 h1 h2 hnp hct hid
    simp only [pv4_get_commit]
    rw [h1]
    simp only
    rw [emit_unchecked_init]
    simp only
    rw [h2]
    simp only
    rw [hnp, read_parents]
    simp only [Nat.add_zero]
    rw [hct]
    simp only
    rw [hid]
    rfl

/-- Witness for C9 at concrete packs: the bad hash index of `P9` aborts,
the truncated tree of `Ptree9` yields a null result, and the out-of-range
identity index of `Pid9` crashes on the unchecked `NULL`. -/
theorem C9_failure_propagation_witness :
    pv4_get_commit P9 0 46 = .error .die ∧
    pv4_get_tree Ptree9 0 5 3 = .error .fail ∧
    pv4_get_commit Pid9 0 60 = .error .crash :=
  ⟨C9_failure_propagation.1 P9 0 46 rfl,
   C9_failure_propagation.2.1 Ptree9 0 5 3 2 1 rfl (by decide) rfl,
   C9_failure_propagation.2.2 Pid9 0 60 (List.replicate 20 17) 21 0 1 5 1
     rfl rfl rfl rfl rfl⟩
